import Mathlib

/-!
Verification development for the `sfmscripts` repository
(`blake_superfast.py`, `blake_xml.py`).

The Python sources are shallowly embedded: Python strings become `String`
(or `List Char` for character-level processing), Python `int` becomes `Int`,
Python `None`-able values become `Option`, and raising code returns
`Except PyErr`.  Each definition is a direct translation of the function
named in its doc comment.
-/

/-- Python exception outcomes that the embedded code can raise.
`attributeError` models `AttributeError` (access to an attribute that was
never set), `valueError` models `ValueError` (with its message),
`indexError` models `IndexError`. -/
inductive PyErr where
  | attributeError : PyErr
  | valueError : String → PyErr
  | indexError : PyErr
  deriving DecidableEq, Repr

/-- A heterogeneous JSON scalar as it appears in fragment lists:
either an integer or a string (numbers sometimes arrive as text). -/
inductive PyVal where
  | int : Int → PyVal
  | str : String → PyVal
  deriving DecidableEq, Repr

/-- Parse a run of decimal digits, accumulating into `acc`;
fails on any non-digit character. -/
def parseDigits : List Char → Nat → Option Nat
  | [], acc => some acc
  | c :: cs, acc =>
    if c.isDigit then parseDigits cs (acc * 10 + (c.toNat - '0'.toNat))
    else none

/-- Digits of a nonempty string as a natural number; `none` when empty
or when any character is not a digit. -/
def parseNatList : List Char → Option Nat
  | [] => none
  | l => parseDigits l 0

/-- Embedding of Python `int(s)` on strings: an optional sign followed by
decimal digits; anything else raises (here: `none`). -/
def pyIntOfStr (s : String) : Option Int :=
  match s.toList with
  | '-' :: rest => (parseNatList rest).map (fun n => -(n : Int))
  | '+' :: rest => (parseNatList rest).map (fun n => (n : Int))
  | l => (parseNatList l).map (fun n => (n : Int))

/-- Embedding of Python `int(x)` on a JSON scalar: integers pass through,
strings are parsed; a non-numeric string raises `ValueError`. -/
def pyInt : PyVal → Except PyErr Int
  | .int n => .ok n
  | .str s =>
    match pyIntOfStr s with
    | some n => .ok n
    | none => .error (.valueError "invalid literal for int()")

/-- Embedding of Python `lst[i]` for a non-negative index: raises
`IndexError` when out of range. -/
def pyIndex (l : List PyVal) (i : Nat) : Except PyErr PyVal :=
  match l.get? i with
  | some v => .ok v
  | none => .error .indexError

/-- Embedding of Python `str.split(sep)` for a one-character separator
(the sources only split on `'.'` and `','`).  `"".split(sep) == ['']` and
separators at the ends produce empty segments, as in Python. -/
def pySplitChar (sep : Char) : List Char → List (List Char)
  | [] => [[]]
  | c :: rest =>
    match pySplitChar sep rest with
    | [] => if c = sep then [[], []] else [[c]]
    | h :: t => if c = sep then [] :: h :: t else (c :: h) :: t

/-- Embedding of Python `sep.join(parts)` for a one-character separator. -/
def joinChar (sep : Char) : List (List Char) → List Char
  | [] => []
  | [p] => p
  | p :: rest => p ++ sep :: joinChar sep rest

/-- Embedding of a Python list slice `l[i:j]` (step omitted): negative
indices count from the end, and both bounds are clamped into `[0, n]`;
an empty range yields `[]`, never an error. -/
def pySliceList (l : List Char) (i j : Int) : List Char :=
  let n : Int := (l.length : Int)
  let lo : Int := if i < 0 then max (n + i) 0 else min i n
  let hi : Int := if j < 0 then max (n + j) 0 else min j n
  (l.drop lo.toNat).take (hi - lo).toNat

/-- The components `BlakeDoc.parse_title` derives from a document title. -/
structure ParsedTitle where
  desc_id : String
  work : Option String
  copy : Option String
  form : Option String
  page : Option String
  deriving DecidableEq, Repr

/-- Embedding of `BlakeDoc.parse_title` (`blake_superfast.py`):
`desc_id = '.'.join(title.split('.')[:-1])`; the four subcomponents come
from unpacking `title.split('.')` into five names, which succeeds exactly
when there are five segments, and are `None` otherwise (the
`try/except ValueError`). -/
def parse_title (title : String) : ParsedTitle :=
  let segs := pySplitChar '.' title.toList
  let desc := String.mk (joinChar '.' segs.dropLast)
  match segs with
  | [w, c, f, p, _] =>
    ⟨desc, some (String.mk w), some (String.mk c), some (String.mk f),
      some (String.mk p)⟩
  | _ => ⟨desc, none, none, none, none⟩

/-- A Superfastmatch/Blake document as the embedded code needs it:
its title (parsed into `desc_id` and subcomponents by `parse_title`)
and its full canonical text. -/
structure BlakeDoc where
  title : String
  text : String
  deriving DecidableEq, Repr

/-- The `desc_id` attribute set by `parse_title`. -/
def BlakeDoc.desc_id (d : BlakeDoc) : String := (parse_title d.title).desc_id

/-- Embedding of `SuperfastDoc.fragment`: `self.text[begin:begin+length]`
under Python slice semantics. -/
def BlakeDoc.fragment (d : BlakeDoc) (begin_ length : Int) : String :=
  String.mk (pySliceList d.text.toList begin_ (begin_ + length))

/-- A row of the relation csv (`blake-relations.csv`): a descriptor id and
the comma-joined list of co-matrix descriptor ids (possibly empty). -/
structure RelRow where
  desc_id : String
  same_matrix_ids : String
  deriving DecidableEq, Repr

/-- Embedding of Python `dict.get(key)`: the value stored under `key`,
`none` when absent.  Dicts are modelled as association lists with unique
keys, in insertion order. -/
def dictGet (d : List (String × List String)) (k : String) :
    Option (List String) :=
  (d.find? (fun p => p.1 = k)).map (fun p => p.2)

/-- Replace the value stored under an existing key. -/
def dictSet (d : List (String × List String)) (k : String)
    (v : List String) : List (String × List String) :=
  d.map (fun p => if p.1 = k then (k, v) else p)

/-- Embedding of `MatrixRelations.load_relations`: rows with an empty
`same_matrix_ids` are skipped; otherwise the comma-split ids are appended
to any existing entry for the row's `desc_id` (the `try/except KeyError`),
or a fresh entry is inserted. -/
def load_relations (rows : List RelRow) : List (String × List String) :=
  rows.foldl
    (fun matrices row =>
      if row.same_matrix_ids = "" then matrices
      else
        let ids := (pySplitChar ',' row.same_matrix_ids.toList).map String.mk
        match dictGet matrices row.desc_id with
        | some existing => dictSet matrices row.desc_id (existing ++ ids)
        | none => matrices ++ [(row.desc_id, ids)])
    []

/-- Embedding of `MatrixRelations.same_matrix`: returns `True` when
`doc.desc_id in self.matrices.get(otherdoc.desc_id)`; a missing entry makes
`.get` return `None`, the `in` test raises `TypeError`, and the handler
falls through to `return False`. -/
def same_matrix (matrices : List (String × List String))
    (doc otherdoc : BlakeDoc) : Bool :=
  match dictGet matrices otherdoc.desc_id with
  | some l => l.contains doc.desc_id
  | none => false

/-- A row of `['documents']['rows']` as `SuperfastDocmatch` consumes it:
the counterpart's identity and the raw fragment descriptor lists. -/
structure Row where
  doctype : Int
  docid : Int
  fragments : List (List PyVal)
  deriving DecidableEq, Repr

/-- The state of a constructed `SuperfastDocmatch`: the primary document,
the resolved counterpart, and the raw row when (and only when) the object
was built from one (`self.data` is otherwise never set). -/
structure Docmatch where
  primary_doc : BlakeDoc
  matching_doc : BlakeDoc
  data : Option Row
  deriving DecidableEq, Repr

/-- Embedding of `SuperfastDocmatch.__init__`: a supplied `match_doc` wins
and the row (if any) is ignored; otherwise a supplied `row_dct` is stored
and its counterpart resolved via the API (modelled by `resolve`); with
neither, `ValueError` is raised.  Returns the constructed object. -/
def Docmatch.init (primary_doc : BlakeDoc) (row_dct : Option Row)
    (match_doc : Option BlakeDoc) (resolve : Int → Int → BlakeDoc) :
    Except PyErr Docmatch :=
  match match_doc with
  | some md => .ok ⟨primary_doc, md, none⟩
  | none =>
    match row_dct with
    | some row => .ok ⟨primary_doc, resolve row.doctype row.docid, some row⟩
    | none => .error (.valueError "row_dct or match_doc must be supplied")

/-- Embedding of `SuperfastDocmatch.excluded`.  The class attribute
`exclusions` is modelled as an explicit `Option`: never set gives
`AttributeError` at `self.exclusions`; set but empty is falsy and raises
`ValueError`; otherwise both directions of the matrix dict are consulted
with `.get(key, [])`, returning `True` on a hit and falling off the end
(Python `None`, here `Option.none`) otherwise. -/
def Docmatch.excluded (exclusions : Option (List (String × List String)))
    (m : Docmatch) : Except PyErr (Option Bool) :=
  match exclusions with
  | none => .error .attributeError
  | some ex =>
    if ex = [] then .error (.valueError "no matrix values are present")
    else if ((dictGet ex m.primary_doc.desc_id).getD []).contains
              m.matching_doc.desc_id
            || ((dictGet ex m.matching_doc.desc_id).getD []).contains
              m.primary_doc.desc_id
    then .ok (some true)
    else .ok none

/-- A `MatchFragment`: the counterpart document, the raw descriptor list,
the coerced begin/length, and the materialized fragment text. -/
structure MatchFragment where
  doc : BlakeDoc
  lst : List PyVal
  begin_ : Int
  length : Int
  text : String
  deriving DecidableEq, Repr

/-- Embedding of `MatchFragment.__init__`: `begin = int(lst[1])`,
`length = int(lst[2])`, `text = doc.fragment(begin, length)`. -/
def MatchFragment.init (doc : BlakeDoc) (fragment_list : List PyVal) :
    Except PyErr MatchFragment :=
  match pyIndex fragment_list 1 with
  | .error e => .error e
  | .ok b =>
    match pyInt b with
    | .error e => .error e
    | .ok bi =>
      match pyIndex fragment_list 2 with
      | .error e => .error e
      | .ok l =>
        match pyInt l with
        | .error e => .error e
        | .ok li => .ok ⟨doc, fragment_list, bi, li, doc.fragment bi li⟩

/-- Materialization of the generator in `SuperfastDocmatch.fragments`:
one `MatchFragment` per entry of `data['fragments']`, in order. -/
def fragmentsFrom (doc : BlakeDoc) :
    List (List PyVal) → Except PyErr (List MatchFragment)
  | [] => .ok []
  | fl :: rest =>
    match MatchFragment.init doc fl with
    | .error e => .error e
    | .ok f =>
      match fragmentsFrom doc rest with
      | .error e => .error e
      | .ok fs => .ok (f :: fs)

/-- Embedding of `SuperfastDocmatch.fragments`: iterates
`self.data['fragments']`; when the object was built from a `match_doc`,
`self.data` was never set and the access raises `AttributeError`. -/
def Docmatch.fragments (m : Docmatch) :
    Except PyErr (List MatchFragment) :=
  match m.data with
  | none => .error .attributeError
  | some row => fragmentsFrom m.matching_doc row.fragments

/-- An element of the parsed markup tree, mirroring the lxml element model
used by `blake_xml.py`: a tag, the text immediately inside the opening tag
(`""` for lxml `None`), the child elements in document order (each carrying
its own following `tail` text), and the tail text after the closing tag.
Removing an element removes its tail with it, as lxml `remove` does. -/
inductive Elem where
  | mk (tag : String) (text : String) (children : List Elem) (tail : String)
  deriving Repr

/-- The element's tag. -/
def Elem.tag : Elem → String
  | .mk tg _ _ _ => tg

/-- The element's `.text` (text before the first child). -/
def Elem.text : Elem → String
  | .mk _ tx _ _ => tx

/-- The element's child elements, in document order. -/
def Elem.children : Elem → List Elem
  | .mk _ _ cs _ => cs

/-- The element's `.tail` (text between its closing tag and the next
sibling). -/
def Elem.tail : Elem → String
  | .mk _ _ _ tl => tl

/-- Assignment `e.text = tx` of lxml, as a functional update. -/
def Elem.withText : Elem → String → Elem
  | .mk tg _ cs tl, tx => .mk tg tx cs tl

mutual
/-- Embedding of `''.join(element.itertext())`: the element's text followed
by, for each child in order, its own itertext and then its tail. -/
def itertext : Elem → String
  | .mk _ tx cs _ => tx ++ itertextList cs

/-- itertext over a child list. -/
def itertextList : List Elem → String
  | [] => ""
  | c :: rest => (itertext c ++ c.tail) ++ itertextList rest
end

mutual
/-- Net effect of `for note in line.findall('.//note'):
note.getparent().remove(note)`: every `note` descendant is detached
together with its tail, at any depth. -/
def removeNotes : Elem → Elem
  | .mk tg tx cs tl => .mk tg tx (removeNotesList cs) tl

/-- Note removal over a child list. -/
def removeNotesList : List Elem → List Elem
  | [] => []
  | c :: rest =>
    if c.tag = "note" then removeNotesList rest
    else removeNotes c :: removeNotesList rest
end

/-- Embedding of `for space in line.findall('space'): space.text = ' '`:
only direct children with tag `space` are touched. -/
def setSpaces : Elem → Elem
  | .mk tg tx cs tl =>
    .mk tg tx (cs.map fun c => if c.tag = "space" then c.withText " " else c) tl

/-- The per-line text built by `XMLObject.text` before whitespace cleanup:
notes deleted, space placeholders substituted, then
`''.join(line.itertext())`. -/
def lineText (line : Elem) : String := itertext (setSpaces (removeNotes line))

mutual
/-- All elements with tag `l` in the subtree rooted at the argument
(descendant-or-self), in document order. -/
def collectL : Elem → List Elem
  | .mk tg tx cs tl =>
    (if tg = "l" then [Elem.mk tg tx cs tl] else []) ++ collectLList cs

/-- `l`-collection over a child list. -/
def collectLList : List Elem → List Elem
  | [] => []
  | c :: rest => collectL c ++ collectLList rest
end

/-- Embedding of the relative XPath `phystext//l` from the object node:
`l` elements at any depth below a direct `phystext` child, in document
order. -/
def xpathPhystextL (obj : Elem) : List Elem :=
  (obj.children.filter (fun c => c.tag = "phystext")).flatMap
    (fun p => collectLList p.children)

/-- The whitespace class of Python's `\s` (ASCII range) and `str.strip`. -/
def isPySpace (c : Char) : Bool :=
  c = ' ' || c = '\t' || c = '\n' || c = '\r' || c = '\x0b' || c = '\x0c'

/-- Worker for whitespace-run collapsing: `prevWs` records whether the
previous character was whitespace (in which case the run already emitted
its single space). -/
def collapseGo : List Char → Bool → List Char
  | [], _ => []
  | c :: rest, prevWs =>
    if isPySpace c then
      (if prevWs then [] else [' ']) ++ collapseGo rest true
    else c :: collapseGo rest false

/-- Embedding of `re.sub(r'\s+', ' ', text)`: every maximal run of
whitespace characters becomes a single space. -/
def collapseList (l : List Char) : List Char := collapseGo l false

/-- Leading-whitespace removal (half of `str.strip()`). -/
def pyLstripList (l : List Char) : List Char := l.dropWhile isPySpace

/-- Embedding of `str.rstrip()`: trailing whitespace removed. -/
def pyRstripList (l : List Char) : List Char :=
  (l.reverse.dropWhile isPySpace).reverse

/-- Embedding of `str.strip()`: whitespace removed at both ends. -/
def pyStripList (l : List Char) : List Char := pyRstripList (pyLstripList l)

/-- String-level `re.sub(r'\s+', ' ', s)`. -/
def collapseWs (s : String) : String := String.mk (collapseList s.toList)

/-- String-level `s.strip()`. -/
def pyStrip (s : String) : String := String.mk (pyStripList s.toList)

/-- String-level `s.rstrip()`. -/
def pyRstrip (s : String) : String := String.mk (pyRstripList s.toList)

/-- Embedding of `XMLObject.text`: for each line selected by
`phystext//l`, clean it (notes out, spaces in, itertext), skip it when the
joined text is empty, otherwise collapse whitespace runs, strip the ends,
and append it plus a newline to the running transcription; finally
`rstrip` the whole transcription. -/
def objectText (obj : Elem) : String :=
  pyRstrip ((xpathPhystextL obj).foldl
    (fun transcription line =>
      let text := lineText line
      if text = "" then transcription
      else transcription ++ (pyStrip (collapseWs text) ++ "\n"))
    "")

/-- Concatenation of a list of strings (spec-side helper). -/
def strConcat : List String → String
  | [] => ""
  | s :: rest => s ++ strConcat rest

/-- Spec-side contribution of one line to the transcription: nothing when
its joined text is empty, otherwise the collapsed and stripped text
followed by one newline. -/
def renderLine (line : Elem) : String :=
  let t := lineText line
  if t = "" then "" else pyStrip (collapseWs t) ++ "\n"

mutual
/-- Spec-side one-pass text reading that never enters a `note` subtree.
Following lxml `remove` semantics, each skipped `note` also takes the tail
text after its closing tag with it, so text that follows a note inside the
line is NOT read — this deliberately deviates from a plain
"concatenate everything outside note subtrees" reading. -/
def noNoteText : Elem → String
  | .mk _ tx cs _ => tx ++ noNoteTextList cs

/-- note-skipping text reading over a child list: a `note` child
contributes neither its subtree's text nor its tail. -/
def noNoteTextList : List Elem → String
  | [] => ""
  | c :: rest =>
    (if c.tag = "note" then "" else noNoteText c ++ c.tail) ++ noNoteTextList rest
end

/-- Spec-side line text: the line's own text, then per child in document
order: nothing at all for a `note` child — neither its subtree's text nor
the tail text that follows it, per lxml `remove` — a single literal space
(plus the placeholder's note-free inner text and tail) for a `space`
child, and the note-free text plus tail for anything else. -/
def lineTextSpec : Elem → String
  | .mk _ tx cs _ =>
    tx ++ strConcat (cs.map fun c =>
      if c.tag = "note" then ""
      else if c.tag = "space" then " " ++ (noNoteTextList c.children ++ c.tail)
      else noNoteText c ++ c.tail)

mutual
/-- Whether any strict descendant carries tag `note`. -/
def hasNoteDesc : Elem → Bool
  | .mk _ _ cs _ => hasNoteDescList cs

/-- note-detection over a child list (the listed elements included). -/
def hasNoteDescList : List Elem → Bool
  | [] => false
  | (Elem.mk tg _ ccs _) :: rest =>
    (tg = "note") || hasNoteDescList ccs || hasNoteDescList rest
end

/-- Whether a character list starts with whitespace. -/
def headWs : List Char → Bool
  | [] => false
  | c :: _ => isPySpace c

/-- Whether every whitespace character in the list is a single `' '` not
followed by further whitespace (i.e. all whitespace runs are collapsed). -/
def wsNormalized : List Char → Bool
  | [] => true
  | c :: rest => (!isPySpace c || (c = ' ' && !headWs rest)) && wsNormalized rest

/-- Whether a character list ends with whitespace. -/
def endsWs (l : List Char) : Bool := headWs l.reverse

theorem pySlice_nat (l : List Char) (a b : Nat) :
    pySliceList l (a : Int) (b : Int) = (l.drop a).take (b - a) := by
  unfold pySliceList
  have ha : ¬((a : Int) < 0) := by omega
  have hb : ¬((b : Int) < 0) := by omega
  simp only [ha, hb, if_false]
  have h1 : min (a : Int) (l.length : Int) = ((min a l.length : Nat) : Int) := by
    push_cast; rfl
  have h2 : min (b : Int) (l.length : Int) = ((min b l.length : Nat) : Int) := by
    push_cast; rfl
  rw [h1, h2, Int.toNat_ofNat, Int.toNat_sub]
  rcases le_or_lt a l.length with hle | hlt
  · rw [Nat.min_eq_left hle]
    rcases le_or_lt b l.length with hbe | hbt
    · rw [Nat.min_eq_left hbe]
    · rw [Nat.min_eq_right (Nat.le_of_lt hbt)]
      rw [List.take_eq_take]
      simp [List.length_drop]
      omega
  · have h3 : min a l.length = l.length := Nat.min_eq_right (Nat.le_of_lt hlt)
    rw [h3]
    rw [List.drop_length, List.drop_of_length_le (Nat.le_of_lt hlt)]
    simp

theorem list_len_five {α : Type} (l : List α) (h : l.length = 5) :
    ∃ a b c d e, l = [a, b, c, d, e] := by
  rcases l with _ | ⟨a, _ | ⟨b, _ | ⟨c, _ | ⟨d, _ | ⟨e, _ | ⟨f, t⟩⟩⟩⟩⟩⟩ <;>
    simp_all

theorem fragmentsFrom_ok (doc : BlakeDoc) :
    ∀ (entries : List (List PyVal)) (frags : List MatchFragment),
      fragmentsFrom doc entries = .ok frags →
      frags.length = entries.length ∧
      ∀ i fl, entries.get? i = some fl →
        ∃ f, MatchFragment.init doc fl = .ok f ∧ frags.get? i = some f := by
  intro entries
  induction entries with
  | nil =>
    intro frags hok
    simp only [fragmentsFrom] at hok
    cases hok
    exact ⟨rfl, by intro i fl h; simp at h⟩
  | cons fl rest ih =>
    intro frags hok
    simp only [fragmentsFrom] at hok
    cases h1 : MatchFragment.init doc fl with
    | error e => rw [h1] at hok; exact absurd hok (by simp)
    | ok f =>
      rw [h1] at hok
      cases h2 : fragmentsFrom doc rest with
      | error e => rw [h2] at hok; exact absurd hok (by simp)
      | ok fs =>
        rw [h2] at hok
        simp only [Except.ok.injEq] at hok
        subst hok
        obtain ⟨hlen, hpt⟩ := ih fs h2
        refine ⟨by simp [hlen], ?_⟩
        intro i fl' hget
        cases i with
        | zero =>
          simp only [List.get?] at hget
          cases hget
          exact ⟨f, h1, rfl⟩
        | succ n =>
          simp only [List.get?] at hget
          obtain ⟨g, hg1, hg2⟩ := hpt n fl' hget
          exact ⟨g, hg1, by simpa using hg2⟩

theorem removeNotes_tag (c : Elem) : (removeNotes c).tag = c.tag := by
  cases c; rfl

theorem removeNotes_tail (c : Elem) : (removeNotes c).tail = c.tail := by
  cases c; rfl

mutual
theorem itertext_removeNotes (e : Elem) :
    itertext (removeNotes e) = noNoteText e := by
  cases e with
  | mk tg tx cs tl =>
    simp only [removeNotes, itertext, noNoteText,
      itertextList_removeNotesList cs]
theorem itertextList_removeNotesList (cs : List Elem) :
    itertextList (removeNotesList cs) = noNoteTextList cs := by
  cases cs with
  | nil => rfl
  | cons c rest =>
    simp only [removeNotesList, noNoteTextList]
    by_cases h : c.tag = "note"
    · simp only [h, if_pos, itertextList_removeNotesList rest]
      rfl
    · simp only [if_neg h, itertextList, itertext_removeNotes c,
        removeNotes_tail, itertextList_removeNotesList rest]
end

theorem itertextList_setSpaces_removeNotesList (cs : List Elem) :
    itertextList ((removeNotesList cs).map
        (fun c => if c.tag = "space" then c.withText " " else c))
      = strConcat (cs.map fun c =>
          if c.tag = "note" then ""
          else if c.tag = "space" then " " ++ (noNoteTextList c.children ++ c.tail)
          else noNoteText c ++ c.tail) := by
  induction cs with
  | nil => rfl
  | cons c rest ih =>
    simp only [removeNotesList, List.map_cons, strConcat]
    by_cases hn : c.tag = "note"
    · simp only [if_pos hn, ih]
      exact (String.empty_append _).symm
    · simp only [if_neg hn, List.map_cons, itertextList]
      by_cases hs : c.tag = "space"
      · have htag : (removeNotes c).tag = "space" := by
          rw [removeNotes_tag]; exact hs
        have hit : itertext ((removeNotes c).withText " ")
            = " " ++ noNoteTextList c.children := by
          cases c with
          | mk tg tx ccs tl =>
            simp only [removeNotes, Elem.withText, itertext,
              itertextList_removeNotesList, Elem.children]
        have htl : ((removeNotes c).withText " ").tail = c.tail := by
          cases c; rfl
        simp only [if_pos htag, if_pos hs, hit, htl, ih]
        simp [String.append_assoc]
      · have htag : ¬(removeNotes c).tag = "space" := by
          rw [removeNotes_tag]; exact hs
        simp only [if_neg htag, if_neg hs, itertext_removeNotes,
          removeNotes_tail, ih]

theorem lineText_eq_spec (line : Elem) : lineText line = lineTextSpec line := by
  cases line with
  | mk tg tx cs tl =>
    simp only [lineText, removeNotes, setSpaces, itertext, lineTextSpec,
      itertextList_setSpaces_removeNotesList]

theorem hasNoteDescList_removeNotesList :
    ∀ cs : List Elem, hasNoteDescList (removeNotesList cs) = false
  | [] => by simp only [removeNotesList, hasNoteDescList]
  | c :: rest => by
    simp only [removeNotesList]
    by_cases h : c.tag = "note"
    · simp only [if_pos h]
      exact hasNoteDescList_removeNotesList rest
    · simp only [if_neg h]
      cases c with
      | mk tg tx ccs tl =>
        simp only [removeNotes, hasNoteDescList,
          hasNoteDescList_removeNotesList ccs,
          hasNoteDescList_removeNotesList rest]
        simp only [Elem.tag] at h
        simp [h]

theorem hasNoteDesc_removeNotes (e : Elem) :
    hasNoteDesc (removeNotes e) = false := by
  cases e with
  | mk tg tx cs tl =>
    simp only [removeNotes, hasNoteDesc, hasNoteDescList_removeNotesList]

theorem headWs_dropWhile (l : List Char) :
    headWs (l.dropWhile isPySpace) = false := by
  induction l with
  | nil => rfl
  | cons c rest ih =>
    by_cases h : isPySpace c
    · rw [List.dropWhile_cons_of_pos h]; exact ih
    · rw [List.dropWhile_cons_of_neg h]
      simpa [headWs] using h

theorem endsWs_pyRstripList (l : List Char) :
    endsWs (pyRstripList l) = false := by
  unfold endsWs pyRstripList
  rw [List.reverse_reverse]
  exact headWs_dropWhile l.reverse

theorem rstrip_prefix (x : List Char) :
    x = pyRstripList x ++ (x.reverse.takeWhile isPySpace).reverse := by
  unfold pyRstripList
  conv_lhs =>
    rw [← List.reverse_reverse x,
      ← List.takeWhile_append_dropWhile (p := isPySpace) (l := x.reverse)]
  rw [List.reverse_append]

theorem headWs_pyRstripList (x : List Char) (h : headWs x = false) :
    headWs (pyRstripList x) = false := by
  cases hr : pyRstripList x with
  | nil => rfl
  | cons c r =>
    have hx := rstrip_prefix x
    rw [hr] at hx
    rw [hx] at h
    simpa [headWs] using h

theorem headWs_pyStripList (l : List Char) :
    headWs (pyStripList l) = false :=
  headWs_pyRstripList _ (headWs_dropWhile l)

theorem endsWs_pyStripList (l : List Char) :
    endsWs (pyStripList l) = false :=
  endsWs_pyRstripList _

theorem headWs_collapseGo_true (l : List Char) :
    headWs (collapseGo l true) = false := by
  induction l with
  | nil => rfl
  | cons c rest ih =>
    by_cases h : isPySpace c
    · simpa [collapseGo, h] using ih
    · simp [collapseGo, h, headWs]

theorem wsNormalized_collapseGo (l : List Char) :
    ∀ prev, wsNormalized (collapseGo l prev) = true := by
  induction l with
  | nil => intro prev; rfl
  | cons c rest ih =>
    intro prev
    by_cases h : isPySpace c
    · cases prev with
      | true => simpa [collapseGo, h] using ih true
      | false =>
        simp only [collapseGo, h, if_true, if_false, List.singleton_append]
        simp only [wsNormalized]
        simp [headWs_collapseGo_true, ih true]
    · simp only [collapseGo, h, if_false]
      simp only [wsNormalized]
      simp [h, ih false]

theorem wsNormalized_collapseList (l : List Char) :
    wsNormalized (collapseList l) = true :=
  wsNormalized_collapseGo l false

theorem foldl_renderLine (lines : List Elem) :
    ∀ acc : String,
      lines.foldl
        (fun transcription line =>
          let text := lineText line
          if text = "" then transcription
          else transcription ++ (pyStrip (collapseWs text) ++ "\n"))
        acc
      = acc ++ strConcat (lines.map renderLine) := by
  induction lines with
  | nil => intro acc; simp [strConcat, String.append_empty]
  | cons line rest ih =>
    intro acc
    simp only [List.foldl_cons, List.map_cons, strConcat, ih]
    by_cases h : lineText line = ""
    · simp only [renderLine, h, if_pos]
      simp [String.empty_append, String.append_empty]
    · simp only [renderLine, h, if_neg, if_false, eq_self_iff_true]
      simp [String.append_assoc]

theorem objectText_eq_render (obj : Elem) :
    objectText obj
      = pyRstrip (strConcat ((xpathPhystextL obj).map renderLine)) := by
  unfold objectText
  rw [foldl_renderLine]
  rw [String.empty_append]

theorem endsWs_objectText (obj : Elem) :
    endsWs (objectText obj).toList = false := by
  unfold objectText pyRstrip
  exact endsWs_pyRstripList _

/-- C1 (counterexample): with the relation table loaded from the single row
`desc_id="a", same_matrix_ids="b,c"`, the id `"b"` does appear in the
co-matrix list stored for `"a"`, yet `same_matrix` applied to documents
with descriptor ids `"a"` and `"b"` (in that order) returns `false` —
refuting the claim that the query is true whenever either direction has
the entry, and with it the claimed symmetry. -/
theorem same_matrix_claim_counterexample :
    same_matrix (load_relations [⟨"a", "b,c"⟩]) ⟨"a.txt", ""⟩ ⟨"b.txt", ""⟩
        = false ∧
    "b" ∈ (dictGet (load_relations [⟨"a", "b,c"⟩])
        (BlakeDoc.desc_id ⟨"a.txt", ""⟩)).getD [] := by
  decide

/-- C1 (amended): `same_matrix(doc, otherdoc)` is true exactly when the
first argument's descriptor id appears in the co-matrix list stored for
the second argument's descriptor id — one direction only; a missing entry
for the second argument yields `false` without error.  On the spec's own
example table (row `a -> "b,c"`, no row for `b`), `same_matrix("b","a")`
is true but `same_matrix("a","b")` is false. -/
theorem same_matrix_one_directional :
    (∀ (m : List (String × List String)) (a b : BlakeDoc),
      same_matrix m a b = true ↔
        ∃ l, dictGet m b.desc_id = some l ∧ a.desc_id ∈ l) ∧
    same_matrix (load_relations [⟨"a", "b,c"⟩]) ⟨"b.txt", ""⟩ ⟨"a.txt", ""⟩
        = true ∧
    same_matrix (load_relations [⟨"a", "b,c"⟩]) ⟨"a.txt", ""⟩ ⟨"b.txt", ""⟩
        = false := by
  refine ⟨?_, by decide, by decide⟩
  intro m a b
  unfold same_matrix
  cases h : dictGet m b.desc_id with
  | none => simp [h]
  | some l => simp [h, List.elem_iff]

/-- C2: `SuperfastDoc.fragment(begin, length)` returns exactly
`text[begin : begin+length]` under permissive slice semantics: for any
natural `start` and `len` it is the naturally truncated substring
`(drop start).take len`, and a start at or past the end of the text yields
the empty string, never an error. -/
theorem fragment_slice_semantics (d : BlakeDoc) (start len extra : Nat) :
    d.fragment (start : Int) (len : Int)
      = String.mk ((d.text.toList.drop start).take len) ∧
    d.fragment ((d.text.toList.length + extra : Nat) : Int) (len : Int) = "" := by
  constructor
  · show String.mk (pySliceList d.text.toList (start : Int)
        ((start : Int) + (len : Int))) = _
    have : (start : Int) + (len : Int) = ((start + len : Nat) : Int) := by
      push_cast; ring
    rw [this, pySlice_nat]
    congr 1
    congr 1
    omega
  · show String.mk (pySliceList d.text.toList _ _) = ""
    have : ((d.text.toList.length + extra : Nat) : Int) + (len : Int)
        = ((d.text.toList.length + extra + len : Nat) : Int) := by
      push_cast; ring
    rw [this, pySlice_nat]
    rw [List.drop_of_length_le (by omega), List.take_nil]

/-- C3 (counterexample): with a non-empty exclusion index attached in
which neither document's descriptor id has an entry, `excluded()` returns
Python `None` (embedded as `Option.none`), not the boolean `False` — so
the claim that the result is the boolean false is refuted. -/
theorem excluded_false_counterexample :
    Docmatch.excluded (some [("x", ["y"])])
        ⟨⟨"p.txt", ""⟩, ⟨"q.txt", ""⟩, none⟩ = .ok none ∧
    (Except.ok (some false) : Except PyErr (Option Bool)) ≠ .ok none := by
  constructor
  · rfl
  · intro hcon
    simp at hcon

/-- C3 (amended): with a non-empty exclusion index attached, `excluded()`
returns `True` exactly when the counterpart's descriptor id is in the
primary's co-matrix entry or the primary's descriptor id is in the
counterpart's co-matrix entry; when neither direction reports same-matrix
it falls off the end and returns `None` (a falsy value), not the boolean
`False`. -/
theorem excluded_returns_none_not_false
    (ex : List (String × List String)) (m : Docmatch) (h : ex ≠ []) :
    (Docmatch.excluded (some ex) m = .ok (some true) ↔
      (m.matching_doc.desc_id ∈ (dictGet ex m.primary_doc.desc_id).getD []
        ∨ m.primary_doc.desc_id
            ∈ (dictGet ex m.matching_doc.desc_id).getD [])) ∧
    (¬ (m.matching_doc.desc_id ∈ (dictGet ex m.primary_doc.desc_id).getD []
        ∨ m.primary_doc.desc_id
            ∈ (dictGet ex m.matching_doc.desc_id).getD []) →
      Docmatch.excluded (some ex) m = .ok none) := by
  simp only [Docmatch.excluded, if_neg h]
  by_cases hc :
      ((dictGet ex m.primary_doc.desc_id).getD []).contains
          m.matching_doc.desc_id
        || ((dictGet ex m.matching_doc.desc_id).getD []).contains
          m.primary_doc.desc_id
  · rw [if_pos hc]
    simp only [Bool.or_eq_true, List.elem_iff] at hc
    simp [hc]
  · rw [if_neg hc]
    simp only [Bool.or_eq_true, List.elem_iff] at hc
    simp [hc]

/-- C3 (witness): the amended theorem applied to the concrete index
`[("x", ["y"])]` and a match whose documents have ids `"p"` and `"q"`:
neither direction reports same-matrix, and the call returns `None`. -/
theorem excluded_returns_none_not_false_witness :
    Docmatch.excluded (some [("x", ["y"])])
        ⟨⟨"p.txt", ""⟩, ⟨"q.txt", ""⟩, none⟩ = .ok none :=
  (excluded_returns_none_not_false [("x", ["y"])]
      ⟨⟨"p.txt", ""⟩, ⟨"q.txt", ""⟩, none⟩ (by decide)).2 (by decide)

/-- C4: calling `excluded()` on a match with no exclusion index attached
fails with an error (the `AttributeError` raised at `self.exclusions`,
playing the spec's `PreconditionError` role) instead of returning any
boolean. -/
theorem excluded_requires_index (m : Docmatch) :
    Docmatch.excluded none m = .error .attributeError := rfl

/-- C5: constructing a `SuperfastDocmatch` with neither a raw row nor a
counterpart document fails with `ValueError` (the spec's
`InvalidArgument`), while supplying exactly one of the two succeeds. -/
theorem docmatch_init_argument_check (p md : BlakeDoc) (row : Row)
    (resolve : Int → Int → BlakeDoc) :
    Docmatch.init p none none resolve
        = .error (.valueError "row_dct or match_doc must be supplied") ∧
    (Docmatch.init p (some row) none resolve).isOk = true ∧
    (Docmatch.init p none (some md) resolve).isOk = true :=
  ⟨rfl, rfl, rfl⟩

/-- C6: the descriptor id is the title with its final dot-delimited
segment removed; the four subcomponents `work`, `copy`, `form`, `page`
equal the first four dot-segments exactly when the title has five
dot-segments, and are all undefined (`none`) for any other segment count;
`"vda.h.illbk.07.txt"` parses to the spec's example values. -/
theorem parse_title_components (title : String) :
    (parse_title title).desc_id
        = String.mk (joinChar '.' (pySplitChar '.' title.toList).dropLast) ∧
    ((pySplitChar '.' title.toList).length = 5 →
      (parse_title title).work
          = ((pySplitChar '.' title.toList).get? 0).map String.mk ∧
      (parse_title title).copy
          = ((pySplitChar '.' title.toList).get? 1).map String.mk ∧
      (parse_title title).form
          = ((pySplitChar '.' title.toList).get? 2).map String.mk ∧
      (parse_title title).page
          = ((pySplitChar '.' title.toList).get? 3).map String.mk) ∧
    ((pySplitChar '.' title.toList).length ≠ 5 →
      (parse_title title).work = none ∧ (parse_title title).copy = none ∧
      (parse_title title).form = none ∧ (parse_title title).page = none) ∧
    parse_title "vda.h.illbk.07.txt"
        = ⟨"vda.h.illbk.07", some "vda", some "h", some "illbk", some "07"⟩ := by
  refine ⟨?_, ?_, ?_, by decide⟩
  · simp only [parse_title]
    split <;> rfl
  · intro h5
    obtain ⟨a, b, c, d, e, heq⟩ := list_len_five _ h5
    simp only [parse_title, heq]
    exact ⟨rfl, rfl, rfl, rfl⟩
  · intro h5
    simp only [parse_title]
    split
    · rename_i w c f p x heq
      exact absurd (by rw [heq]; rfl) h5
    · exact ⟨rfl, rfl, rfl, rfl⟩

/-- C6 (witness): the component theorem applied to the five-segment title
`"vda.h.illbk.07.txt"` and to the three-segment title `"but518.wc.01"`. -/
theorem parse_title_components_witness :
    (pySplitChar '.' ("vda.h.illbk.07.txt" : String).toList).length = 5 ∧
    (parse_title "vda.h.illbk.07.txt").work
        = ((pySplitChar '.' ("vda.h.illbk.07.txt" : String).toList).get? 0).map
            String.mk ∧
    (pySplitChar '.' ("but518.wc.01" : String).toList).length ≠ 5 ∧
    (parse_title "but518.wc.01").work = none :=
  ⟨by decide,
    ((parse_title_components "vda.h.illbk.07.txt").2.1 (by decide)).1,
    by decide,
    ((parse_title_components "but518.wc.01").2.2.1 (by decide)).1⟩

/-- C7 (counterexample): an object with one pure-whitespace line followed
by the `Jehovah<space/>What` line — i.e. exactly the claimed scenario with
the whitespace line first — extracts to `"\nJehovah What"`, not
`"Jehovah What"`: the whitespace line's joined text is non-empty, so it is
not skipped, and its cleaned (empty) text still contributes a line
separator that only a final right-strip could not remove. -/
theorem extractor_scenario_counterexample :
    objectText
        (.mk "desc" ""
          [.mk "phystext" ""
            [.mk "l" " \n " [] "",
             .mk "l" "Jehovah" [.mk "space" "" [] "What"] ""] ""] "")
      = "\nJehovah What" ∧
    ("\nJehovah What" : String) ≠ "Jehovah What" := by
  constructor
  · decide
  · decide

/-- C7 (amended): `XMLObject.text` equals the right-strip of the
concatenation, over the selected lines in order, of nothing for a line
whose joined text is empty and the collapsed, stripped text plus one
newline otherwise; the result never ends in whitespace (no trailing
newline); collapsing turns every maximal whitespace run into a single
space and stripping removes leading and trailing whitespace; and the
claimed scenario extracts to exactly `"Jehovah What"` when the
pure-whitespace line follows the text line (a preceding whitespace line
instead leaves a leading newline). -/
theorem extractor_normalization (obj : Elem) (s : String) :
    objectText obj
        = pyRstrip (strConcat ((xpathPhystextL obj).map renderLine)) ∧
    endsWs (objectText obj).toList = false ∧
    wsNormalized (collapseWs s).toList = true ∧
    headWs (pyStrip s).toList = false ∧
    endsWs (pyStrip s).toList = false ∧
    objectText
        (.mk "desc" ""
          [.mk "phystext" ""
            [.mk "l" "Jehovah" [.mk "space" "" [] "What"] "",
             .mk "l" " \n " [] ""] ""] "")
      = "Jehovah What" :=
  ⟨objectText_eq_render obj, endsWs_objectText obj,
    wsNormalized_collapseList s.toList,
    headWs_pyStripList s.toList,
    endsWs_pyStripList s.toList,
    by decide⟩

/-- C8 (counterexample): the line `a<note>x</note>b` — text `"a"`, one
`note` child with text `"x"` and tail `"b"` — extracts to `"a"`: the tail
text `"b"`, which is not part of the annotation subtree, is dropped along
with the note (lxml `remove` detaches the tail too), refuting the claim
that all non-annotation text within the line is concatenated (that reading
requires `"ab"`).  The same tree with a non-`note` child keeps both the
child's text and its tail (`"axb"`), confirming the note is what loses
`"b"`. -/
theorem note_tail_dropped_counterexample :
    lineText (.mk "l" "a" [.mk "note" "x" [] "b"] "") = "a" ∧
    lineText (.mk "l" "a" [.mk "em" "x" [] "b"] "") = "axb" ∧
    ("a" : String) ≠ "ab" := by
  refine ⟨by decide, by decide, by decide⟩

/-- C8 (amended): the per-line extracted text equals a one-pass spec-side
reading that never enters a `note` subtree at any depth (so no annotation
text can appear) and that also drops the tail text following each removed
note (lxml `remove` semantics — text after a note inside the line is
lost), substitutes exactly one literal space for each `space` placeholder
directly under the line, and concatenates all remaining text, including
nested descendants, in document order; moreover after note removal no
`note` element remains anywhere in the line. -/
theorem line_text_skips_notes (line : Elem) :
    lineText line = lineTextSpec line ∧
    hasNoteDesc (removeNotes line) = false :=
  ⟨lineText_eq_spec line, hasNoteDesc_removeNotes line⟩

/-- C9: `fragments()` on a match built from a raw row yields exactly one
fragment per descriptor of the row's list, in order (the result is a
finite list, re-iterable at will); each fragment's begin offset is the
integer coercion of the descriptor's field 1 (the counterpart-text start)
and its length the coercion of field 2, its text being the counterpart
substring at those offsets; and a descriptor whose offsets arrive as
numeric strings produces the same begin, length and fragment text as the
same descriptor with integer offsets. -/
theorem fragments_enumeration :
    (∀ (m : Docmatch) (row : Row) (frags : List MatchFragment),
      m.data = some row → m.fragments = .ok frags →
        frags.length = row.fragments.length ∧
        ∀ i fl, row.fragments.get? i = some fl →
          ∃ f, MatchFragment.init m.matching_doc fl = .ok f ∧
            frags.get? i = some f) ∧
    (∀ (doc : BlakeDoc) (fl : List PyVal) (f : MatchFragment),
      MatchFragment.init doc fl = .ok f →
        f.doc = doc ∧ f.lst = fl ∧
        (∃ v, pyIndex fl 1 = .ok v ∧ pyInt v = .ok f.begin_) ∧
        (∃ v, pyIndex fl 2 = .ok v ∧ pyInt v = .ok f.length) ∧
        f.text = doc.fragment f.begin_ f.length) ∧
    (∀ (doc : BlakeDoc) (a d : PyVal) (b l : Int) (sb sl : String),
      pyIntOfStr sb = some b → pyIntOfStr sl = some l →
        (MatchFragment.init doc [a, .str sb, .str sl, d]).map
            (fun f => (f.begin_, f.length, f.text))
          = (MatchFragment.init doc [a, .int b, .int l, d]).map
            (fun f => (f.begin_, f.length, f.text))) := by
  refine ⟨?_, ?_, ?_⟩
  · intro m row frags hdata hok
    unfold Docmatch.fragments at hok
    rw [hdata] at hok
    exact fragmentsFrom_ok m.matching_doc row.fragments frags hok
  · intro doc fl f hok
    unfold MatchFragment.init at hok
    split at hok
    · exact absurd hok (by simp)
    · rename_i b h1
      split at hok
      · exact absurd hok (by simp)
      · rename_i bi h2
        split at hok
        · exact absurd hok (by simp)
        · rename_i l h3
          split at hok
          · exact absurd hok (by simp)
          · rename_i li h4
            simp only [Except.ok.injEq] at hok
            subst hok
            exact ⟨rfl, rfl, ⟨b, h1, h2⟩, ⟨l, h3, h4⟩, rfl⟩
  · intro doc a d b l sb sl hb hl
    simp only [MatchFragment.init, pyIndex, List.get?, pyInt, hb, hl]
    rfl

/-- C9 (witness): the enumeration theorem applied to a match over the text
`"hello world"` with the single descriptor `[28, 0, 5, 99]` — one fragment
with text `"hello"` — and the coercion part applied to string offsets
`"0"`, `"5"`. -/
theorem fragments_enumeration_witness :
    ([(⟨⟨"q.txt", "hello world"⟩,
        [PyVal.int 28, PyVal.int 0, PyVal.int 5, PyVal.int 99],
        (0 : Int), (5 : Int), "hello"⟩ : MatchFragment)] :
          List MatchFragment).length
      = ([[PyVal.int 28, PyVal.int 0, PyVal.int 5, PyVal.int 99]] :
          List (List PyVal)).length ∧
    (MatchFragment.init ⟨"q.txt", "hello world"⟩
        [PyVal.int 99, PyVal.str "0", PyVal.str "5", PyVal.int 1]).map
        (fun f => (f.begin_, f.length, f.text))
      = (MatchFragment.init ⟨"q.txt", "hello world"⟩
        [PyVal.int 99, PyVal.int 0, PyVal.int 5, PyVal.int 1]).map
        (fun f => (f.begin_, f.length, f.text)) :=
  ⟨(fragments_enumeration.1
      ⟨⟨"p.txt", ""⟩, ⟨"q.txt", "hello world"⟩,
        some ⟨1, 2, [[PyVal.int 28, PyVal.int 0, PyVal.int 5, PyVal.int 99]]⟩⟩
      ⟨1, 2, [[PyVal.int 28, PyVal.int 0, PyVal.int 5, PyVal.int 99]]⟩
      [⟨⟨"q.txt", "hello world"⟩,
        [PyVal.int 28, PyVal.int 0, PyVal.int 5, PyVal.int 99],
        (0 : Int), (5 : Int), "hello"⟩]
      rfl rfl).1,
    fragments_enumeration.2.2 ⟨"q.txt", "hello world"⟩
      (PyVal.int 99) (PyVal.int 1) 0 5 "0" "5" (by decide) (by decide)⟩

/-- C10: constructing a match with both a raw row and a directly supplied
counterpart succeeds, takes the supplied document as the counterpart, and
discards the row entirely (`data` is never set), so `fragments()` on such
a match has no descriptor list and fails with `AttributeError`. -/
theorem init_prefers_match_doc (p md : BlakeDoc) (row : Row)
    (resolve : Int → Int → BlakeDoc) :
    Docmatch.init p (some row) (some md) resolve = .ok ⟨p, md, none⟩ ∧
    Docmatch.fragments ⟨p, md, none⟩ = .error .attributeError :=
  ⟨rfl, rfl⟩
